import Mathlib

/-!
Verification of the bank-statement extraction engine (`src/backend/main.py`).

The engine's core is shallowly embedded below:
* `parse_currency` embeds the Python function `parse_currency` (main.py lines
  18-42).  Python `float` values are modelled as exact rationals (`ℚ`); the
  embedded numeric-string conversion `pyFloat` models what Python's `float(...)`
  constructor accepts on strings over the character set `[0-9.-]`, which is the
  only set reachable after the `re.sub(r'[^\d.\-]', ...)` normalization step.
* The four transaction regex patterns and the header regexes of
  `extract_statement_data` (main.py lines 45-153) are embedded as explicit
  backtracking scanners over `List Char`, mirroring Python `re` semantics
  (leftmost match, lazy/greedy preference) for these concrete patterns.
* `pandas.DataFrame.sort_values('Date')` is modelled as a sort by the
  lexicographic (code-point) order on the `Date` string; the claims under
  verification concern sortedness and multiset content only, which are
  independent of the tie-breaking order of the concrete sort algorithm.
-/

namespace FinParser

/-- Python `\s` / `str.strip()` whitespace for ASCII text. -/
def isSpaceCh (c : Char) : Bool :=
  c = ' ' || c = '\t' || c = '\n' || c = '\r' || c = '\x0b' || c = '\x0c'

/-- Python regex `[A-Za-z]`. -/
def isAlphaCh (c : Char) : Bool :=
  ('A' ≤ c && c ≤ 'Z') || ('a' ≤ c && c ≤ 'z')

/-- Characters admitted by the regex class `[\d,]`. -/
def isDigitComma (c : Char) : Bool := c.isDigit || c = ','

/-- Characters kept by `re.sub(r'[^\d.\-]', '', s)` (main.py line 36). -/
def isNumCh (c : Char) : Bool := c.isDigit || c = '.' || c = '-'

/-- Python `str.strip()`: drop leading and trailing whitespace. -/
def stripChars (cs : List Char) : List Char :=
  ((cs.dropWhile isSpaceCh).reverse.dropWhile isSpaceCh).reverse

/-- Numeric value of a big-endian list of digit characters (the usual
decimal accumulator, used to model Python's numeric string conversion). -/
def natVal (cs : List Char) : ℕ :=
  cs.foldl (fun n c => 10 * n + (c.toNat - 48)) 0

/-- Python `float(s)` restricted to its unsigned core: digit characters with at
most one decimal point, at least one digit; everything else is rejected.
The result is exact (`ℚ`): see the module comment. -/
def pyFloatCore (cs : List Char) : Option ℚ :=
  let ip := cs.takeWhile (· ≠ '.')
  match cs.dropWhile (· ≠ '.') with
  | [] =>
    if !ip.isEmpty && ip.all Char.isDigit then some (mkRat (natVal ip) 1) else none
  | c :: r2 =>
    if c = '.' then
      if r2.contains '.' then none
      else if (!ip.isEmpty || !r2.isEmpty) && ip.all Char.isDigit && r2.all Char.isDigit then
        -- the value ip.frac, i.e. natVal ip + natVal r2 / 10 ^ r2.length,
        -- written as one `mkRat` so that it reduces in the kernel
        some (mkRat (natVal ip * 10 ^ r2.length + natVal r2 : ℕ) (10 ^ r2.length))
      else none
    else none

/-- Python `float(s)` on strings over `[0-9.-]`: an optional single leading
minus sign, then the unsigned core. -/
def pyFloat (cs : List Char) : Option ℚ :=
  match cs with
  | '-' :: r => (pyFloatCore r).map (fun v => -v)
  | _ => pyFloatCore cs

/-- Embedding of `parse_currency` (main.py lines 18-42), on the character list
of the input string.  Mirrors the source step by step: empty-falsy check,
removal of `$` and `,`, `strip()`, parenthesis-negation detection and removal,
`re.sub(r'[^\d.\-]', '', ...)`, then `float(...)` with the `ValueError` branch
returning `0.0`. -/
def parse_currency_chars (cs : List Char) : ℚ :=
  if cs.isEmpty then 0 else
  let c1 := cs.filter (fun c => c ≠ '$' && c ≠ ',')
  let c2 := stripChars c1
  let isNeg : Bool := c2.contains '(' && c2.contains ')'
  let c3 := if isNeg then c2.filter (fun c => c ≠ '(' && c ≠ ')') else c2
  let c4 := c3.filter isNumCh
  match pyFloat c4 with
  | some v => if isNeg then -v else v
  | none => 0

/-- `parse_currency` (main.py lines 18-42). -/
def parse_currency (s : String) : ℚ := parse_currency_chars s.data

/-! ### Decimal rendering with digit grouping

`natRepr a` models Python `str(a)` for a natural number `a`; `grouped a`
models the digit-grouped rendering `f"{a:,}"` (a comma every three digits
from the right). -/

/-- The character for a decimal digit `d < 10`. -/
def toDigitChar (d : ℕ) : Char := Char.ofNat (48 + d)

/-- Decimal digit characters of `a`, most significant first (Python `str(a)`). -/
def natRepr (a : ℕ) : List Char :=
  if a = 0 then ['0'] else ((Nat.digits 10 a).map toDigitChar).reverse

/-- Insert a comma after every three characters of a reversed digit list. -/
def groupRev : List Char → List Char
  | a :: b :: c :: d :: rest => a :: b :: c :: ',' :: groupRev (d :: rest)
  | l => l

/-- Digit-grouped decimal rendering of `a` (Python `f"{a:,}"`). -/
def groupedChars (a : ℕ) : List Char := (groupRev (natRepr a).reverse).reverse

/-- The spec's formatted amount `"$" + grouped(a) + ".00"`. -/
def dollarFmt (a : ℕ) : String :=
  String.mk ('$' :: groupedChars a ++ ['.', '0', '0'])

/-- The spec's parenthesized amount `"(" + str(a) + ")"`. -/
def parenFmt (a : ℕ) : String :=
  String.mk ('(' :: natRepr a ++ [')'])

/-! ### Regex scanning primitives

Each concrete regex of `extract_statement_data` is embedded as an explicit
scanner.  `searchFirst` models `re.search` (leftmost successful start),
`scanAll` models `re.finditer` (leftmost, non-overlapping, continue after each
match).  For the concrete patterns of this program, greedy pieces followed by a
character they cannot match are implemented by maximal munch, which coincides
with backtracking semantics; the single place where genuine backtracking can
occur (`\s+(.*?)\s+\$` in the fallback pattern) is modelled explicitly by
`genSplitLoop`. -/

/-- Drop a literal from the front, or fail. -/
def dropLit : List Char → List Char → Option (List Char)
  | [], cs => some cs
  | _ :: _, [] => none
  | p :: ps, c :: cs => if c = p then dropLit ps cs else none

/-- Does the literal occur at the front? -/
def startsWithLit (lit cs : List Char) : Bool := (dropLit lit cs).isSome

/-- `\s+`: one or more whitespace characters (greedy). Returns (matched, rest). -/
def spaces1 (cs : List Char) : Option (List Char × List Char) :=
  let sp := cs.takeWhile isSpaceCh
  if sp.isEmpty then none else some (sp, cs.dropWhile isSpaceCh)

/-- `\d+`: one or more digits (greedy). -/
def digits1 (cs : List Char) : Option (List Char × List Char) :=
  let d := cs.takeWhile Char.isDigit
  if d.isEmpty then none else some (d, cs.dropWhile Char.isDigit)

/-- `\d{2}-\d{2}`: the five-character date token. -/
def matchDD : List Char → Option (List Char × List Char)
  | a :: b :: '-' :: c :: d :: r =>
    if a.isDigit && b.isDigit && c.isDigit && d.isDigit then
      some ([a, b, '-', c, d], r)
    else none
  | _ => none

/-- One expected literal character. -/
def expectCh (ch : Char) : List Char → Option (List Char)
  | c :: r => if c = ch then some r else none
  | [] => none

/-- `[\d,]+\.?\d*`: the amount capture shared by all four patterns (greedy;
no construct after it can consume `[0-9,.]`, so maximal munch is exact). -/
def munchAmount (cs : List Char) : Option (List Char × List Char) :=
  let a := cs.takeWhile isDigitComma
  let r1 := cs.dropWhile isDigitComma
  if a.isEmpty then none else
  match r1 with
  | '.' :: r2 => some (a ++ '.' :: r2.takeWhile Char.isDigit, r2.dropWhile Char.isDigit)
  | _ => some (a, r1)

/-- Exactly `n` digits (`\d{n}`), no constraint on what follows. -/
def exactDigits : ℕ → List Char → Option (List Char × List Char)
  | 0, cs => some ([], cs)
  | n + 1, c :: r =>
    if c.isDigit then (exactDigits n r).map (fun (d, rest) => (c :: d, rest)) else none
  | _ + 1, [] => none

/-- `re.search`: try the matcher at every start position, leftmost wins. -/
def searchFirst {α : Type} (m : List Char → Option α) : List Char → Option α
  | [] => m []
  | c :: cs =>
    match m (c :: cs) with
    | some a => some a
    | none => searchFirst m cs

/-- `re.finditer`: non-overlapping leftmost matches, continuing after each
match.  Every concrete matcher below consumes at least one character on
success, so fuel equal to the text length covers the whole text. -/
def scanAll {α : Type} (m : List Char → Option (α × List Char)) :
    ℕ → List Char → List α
  | 0, _ => []
  | _ + 1, [] => []
  | fuel + 1, c :: cs =>
    match m (c :: cs) with
    | some (a, rest) => a :: scanAll m fuel rest
    | none => scanAll m fuel cs

/-- Skip up to and including the next newline; fail if there is none
(models `.*?\n` under `re.DOTALL`, and `[^\n]*\n`). -/
def dropThroughNl : List Char → Option (List Char)
  | [] => none
  | '\n' :: r => some r
  | _ :: r => dropThroughNl r

/-- `(.*?)(?=STOP|$)` under `re.DOTALL` without `re.MULTILINE`: the shortest
prefix ending where `STOP` follows, or at end of text, or just before a single
trailing newline. -/
def lazyUpto (stop : List Char) : List Char → List Char
  | [] => []
  | c :: r =>
    if startsWithLit stop (c :: r) then []
    else if c = '\n' && r.isEmpty then []
    else c :: lazyUpto stop r

/-! ### The data model -/

/-- A transaction record (the dicts appended to `transactions`,
main.py lines 95-143); field names follow the source's dict keys. -/
structure TransactionRecord where
  Date : String
  Description : String
  «Type» : String
  Amount : ℚ
deriving DecidableEq

/-- The `header_data` dict (main.py lines 49-54). -/
structure HeaderData where
  account_number : String
  statement_period : String
  beginning_balance : String
  ending_balance : String
deriving DecidableEq

/-! ### Pattern 1: inline deposits
`(Deposit[^\n]*?)\s+(\d{2}-\d{2})\s+\$([\d,]+\.?\d*)` (main.py line 93). -/

/-- Raw captures of one deposit match. -/
structure DepositMatch where
  desc : List Char
  date : List Char
  amount : List Char
deriving DecidableEq

/-- The part after the lazy description group: `\s+(\d{2}-\d{2})\s+\$(amount)`. -/
def p1Tail (cs : List Char) : Option (List Char × List Char × List Char) :=
  (spaces1 cs).bind fun (_, r1) =>
  (matchDD r1).bind fun (d, r2) =>
  (spaces1 r2).bind fun (_, r3) =>
  (expectCh '$' r3).bind fun r4 =>
  (munchAmount r4).map fun (amt, r5) => (d, amt, r5)

/-- Lazy growth of the `[^\n]*?` description group: shortest extension whose
tail matches; a newline stops the growth (and fails the whole attempt). -/
def p1Lazy (acc : List Char) : List Char → Option (List Char × List Char × List Char × List Char)
  | [] =>
    match p1Tail [] with
    | some (d, amt, r) => some (acc, d, amt, r)
    | none => none
  | c :: cs =>
    match p1Tail (c :: cs) with
    | some (d, amt, r) => some (acc, d, amt, r)
    | none => if c = '\n' then none else p1Lazy (acc ++ [c]) cs

/-- One attempt of pattern 1 at the current position. -/
def matchDeposit (cs : List Char) : Option (DepositMatch × List Char) :=
  (dropLit "Deposit".data cs).bind fun r =>
  (p1Lazy [] r).map fun (g, d, amt, rest) =>
  ({ desc := "Deposit".data ++ g, date := d, amount := amt }, rest)

/-- The record built from a deposit match (main.py lines 95-100). -/
def mkDepositRecord (m : DepositMatch) : TransactionRecord :=
  { Date := String.mk m.date
    Description := String.mk (stripChars m.desc)
    «Type» := "Credit"
    Amount := parse_currency (String.mk m.amount) }

/-- All records produced by pattern 1. -/
def deposit_records (t : String) : List TransactionRecord :=
  (scanAll matchDeposit t.data.length t.data).map mkDepositRecord

/-! ### Pattern 2: multi-line ATM blocks (main.py lines 104-116)
Section: `ATM Withdrawals \& Debits Account.*?\n(.*?)(?=Total ATM|$)` (DOTALL);
blocks: `ATM Withdrawal\n([^\n]+)\n([^\n]*?)(\d{2}-\d{2})\s+(\d{2}-\d{2})\s+\$([\d,]+\.?\d*)`. -/

/-- Raw captures of one ATM block: location line, the two dates
(posted, paid) and the amount. -/
structure AtmMatch where
  location : List Char
  datePosted : List Char
  datePaid : List Char
  amount : List Char
deriving DecidableEq

/-- Header part of the ATM section search: the literal, then `.*?\n`
(everything up to and including the first newline, which must exist). -/
def matchAtmHeader (cs : List Char) : Option (List Char) :=
  (dropLit "ATM Withdrawals & Debits Account".data cs).bind dropThroughNl

/-- The captured ATM sub-region (`atm_section.group(1)`), if any. -/
def atm_text (cs : List Char) : Option (List Char) :=
  (searchFirst matchAtmHeader cs).map (lazyUpto "Total ATM".data)

/-- Tail after the lazy `[^\n]*?` group: the two dates and the amount. -/
def atmTail (cs : List Char) :
    Option (List Char × List Char × List Char × List Char) :=
  (matchDD cs).bind fun (d1, r1) =>
  (spaces1 r1).bind fun (_, r2) =>
  (matchDD r2).bind fun (d2, r3) =>
  (spaces1 r3).bind fun (_, r4) =>
  (expectCh '$' r4).bind fun r5 =>
  (munchAmount r5).map fun (amt, r6) => (d1, d2, amt, r6)

/-- Lazy growth of the unused `([^\n]*?)` group before the dates. -/
def atmLazy : List Char → Option (List Char × List Char × List Char × List Char)
  | [] =>
    match atmTail [] with
    | some res => some res
    | none => none
  | c :: cs =>
    match atmTail (c :: cs) with
    | some res => some res
    | none => if c = '\n' then none else atmLazy cs

/-- One attempt of the ATM block pattern at the current position. -/
def matchAtm (cs : List Char) : Option (AtmMatch × List Char) :=
  (dropLit "ATM Withdrawal".data cs).bind fun r1 =>
  (expectCh '\n' r1).bind fun r2 =>
  let loc := r2.takeWhile (· ≠ '\n')
  let r3 := r2.dropWhile (· ≠ '\n')
  if loc.isEmpty then none else
  (expectCh '\n' r3).bind fun r4 =>
  (atmLazy r4).map fun (d1, d2, amt, rest) =>
  ({ location := loc, datePosted := d1, datePaid := d2, amount := amt }, rest)

/-- The record built from an ATM match (main.py lines 110-116): type Debit,
the SECOND date (`match.group(4)`, the "Date Paid" column), and the
synthesized description. -/
def mkAtmRecord (m : AtmMatch) : TransactionRecord :=
  { Date := String.mk m.datePaid
    Description := "ATM Withdrawal - " ++ String.mk (stripChars m.location)
    «Type» := "Debit"
    Amount := parse_currency (String.mk m.amount) }

/-- All records produced by pattern 2. -/
def atm_records (t : String) : List TransactionRecord :=
  match atm_text t.data with
  | none => []
  | some sec => (scanAll matchAtm sec.length sec).map mkAtmRecord

/-! ### Pattern 3: checks paid (main.py lines 120-130)
Section: `ChecksPaid[^\n]*\n.*?Date Paid[^\n]*\n(.*?)(?=Total Checks|$)` (DOTALL);
rows: `(\d{2}-\d{2})\s+(\d+)\s+([\d,]+\.?\d*)\s+(\d+)`. -/

/-- Raw captures of one check row. -/
structure CheckMatch where
  date : List Char
  num : List Char
  amount : List Char
  ref : List Char
deriving DecidableEq

/-- `Date Paid[^\n]*\n` at the current position. -/
def matchDatePaid (cs : List Char) : Option (List Char) :=
  (dropLit "Date Paid".data cs).bind dropThroughNl

/-- `ChecksPaid[^\n]*\n.*?Date Paid[^\n]*\n` at the current position. -/
def matchChecksHeader (cs : List Char) : Option (List Char) :=
  ((dropLit "ChecksPaid".data cs).bind dropThroughNl).bind
    (searchFirst matchDatePaid)

/-- The captured checks sub-region (`checks_section.group(1)`), if any. -/
def checks_text (cs : List Char) : Option (List Char) :=
  (searchFirst matchChecksHeader cs).map (lazyUpto "Total Checks".data)

/-- One attempt of the check row pattern at the current position. -/
def matchCheck (cs : List Char) : Option (CheckMatch × List Char) :=
  (matchDD cs).bind fun (d, r1) =>
  (spaces1 r1).bind fun (_, r2) =>
  (digits1 r2).bind fun (num, r3) =>
  (spaces1 r3).bind fun (_, r4) =>
  (munchAmount r4).bind fun (amt, r5) =>
  (spaces1 r5).bind fun (_, r6) =>
  (digits1 r6).map fun (ref, r7) =>
  ({ date := d, num := num, amount := amt, ref := ref }, r7)

/-- The record built from a check row (main.py lines 125-130). -/
def mkCheckRecord (m : CheckMatch) : TransactionRecord :=
  { Date := String.mk m.date
    Description := "Check #" ++ String.mk m.num
    «Type» := "Debit"
    Amount := parse_currency (String.mk m.amount) }

/-- All records produced by pattern 3. -/
def check_records (t : String) : List TransactionRecord :=
  match checks_text t.data with
  | none => []
  | some sec => (scanAll matchCheck sec.length sec).map mkCheckRecord

/-! ### Pattern 4: generic fallback (main.py lines 134-143)
`(\d{2}-\d{2})\s+(.*?)\s+\$([\d,]+\.?\d*)`, applied only when
patterns 1-3 produced nothing. -/

/-- Raw captures of one generic match. -/
structure GenericMatch where
  date : List Char
  desc : List Char
  amount : List Char
deriving DecidableEq

/-- Tail after the lazy description group: `\s+\$(amount)`. -/
def genTail (cs : List Char) : Option (List Char × List Char) :=
  (spaces1 cs).bind fun (_, r1) =>
  (expectCh '$' r1).bind fun r2 =>
  munchAmount r2

/-- Lazy growth of the `(.*?)` description group (`.` does not match `\n`). -/
def genLazy (acc : List Char) : List Char → Option (List Char × List Char × List Char)
  | [] =>
    match genTail [] with
    | some (amt, r) => some (acc, amt, r)
    | none => none
  | c :: cs =>
    match genTail (c :: cs) with
    | some (amt, r) => some (acc, amt, r)
    | none => if c = '\n' then none else genLazy (acc ++ [c]) cs

/-- Backtracking of the greedy `\s+` before the lazy group: the engine
first gives `\s+` the whole whitespace run, then shorter runs (≥ 1 char);
the remaining whitespace characters become the start of the region the lazy
group grows over.  `sp` is the full whitespace run, `rest` what follows it;
the argument counts how many leading whitespace characters `\s+` keeps. -/
def genSplitLoop (sp rest : List Char) : ℕ → Option (List Char × List Char × List Char)
  | 0 => none
  | i + 1 =>
    match genLazy [] (sp.drop (i + 1) ++ rest) with
    | some res => some res
    | none => genSplitLoop sp rest i

/-- One attempt of the generic pattern at the current position. -/
def matchGeneric (cs : List Char) : Option (GenericMatch × List Char) :=
  (matchDD cs).bind fun (d, r1) =>
  (spaces1 r1).bind fun (sp, rest) =>
  (genSplitLoop sp rest sp.length).map fun (g, amt, r) =>
  ({ date := d, desc := g, amount := amt }, r)

/-- The record built from a generic match (main.py lines 138-143): the
description is stripped and truncated to 50 characters. -/
def mkGenericRecord (m : GenericMatch) : TransactionRecord :=
  { Date := String.mk m.date
    Description := String.mk ((stripChars m.desc).take 50)
    «Type» := "Unknown"
    Amount := parse_currency (String.mk m.amount) }

/-- All records produced by pattern 4. -/
def generic_records (t : String) : List TransactionRecord :=
  (scanAll matchGeneric t.data.length t.data).map mkGenericRecord

/-! ### Header extraction (main.py lines 66-87) -/

/-- `Account\s*#\s*(\d+)` at the current position. -/
def matchAccount (cs : List Char) : Option (List Char) :=
  (dropLit "Account".data cs).bind fun r1 =>
  (expectCh '#' (r1.dropWhile isSpaceCh)).bind fun r3 =>
  (digits1 (r3.dropWhile isSpaceCh)).map (·.1)

/-- `LABEL[^\$]*\$([\d,]+\.?\d*)` at the current position. -/
def matchBalance (lbl : List Char) (cs : List Char) : Option (List Char) :=
  (dropLit lbl cs).bind fun r1 =>
  (expectCh '$' (r1.dropWhile (· ≠ '$'))).bind fun r3 =>
  (munchAmount r3).map (·.1)

/-- The captured date `([A-Za-z]+\s+\d+,?\s+\d{4})`; the capture is returned
verbatim, internal whitespace included. -/
def matchMonthDate (cs : List Char) : Option (List Char) :=
  let letters := cs.takeWhile isAlphaCh
  let r1 := cs.dropWhile isAlphaCh
  if letters.isEmpty then none else
  (spaces1 r1).bind fun (sp1, r2) =>
  (digits1 r2).bind fun (day, r3) =>
  let comma : List Char := match r3 with | ',' :: _ => [','] | _ => []
  let r4 : List Char := match r3 with | ',' :: r => r | _ => r3
  (spaces1 r4).bind fun (sp2, r5) =>
  (exactDigits 4 r5).map fun (yr, _) =>
  letters ++ sp1 ++ day ++ comma ++ sp2 ++ yr

/-- `(?:Beginning Balance on|from)\s+(month date)`; alternatives are tried
left to right at each position. -/
def matchPeriodStart (cs : List Char) : Option (List Char) :=
  let tail := fun r => (spaces1 r).bind fun (_, r2) => matchMonthDate r2
  match (dropLit "Beginning Balance on".data cs).bind tail with
  | some g => some g
  | none => (dropLit "from".data cs).bind tail

/-- `(?:Ending Balance on|through|to)\s+(month date)`. -/
def matchPeriodEnd (cs : List Char) : Option (List Char) :=
  let tail := fun r => (spaces1 r).bind fun (_, r2) => matchMonthDate r2
  match (dropLit "Ending Balance on".data cs).bind tail with
  | some g => some g
  | none =>
    match (dropLit "through".data cs).bind tail with
    | some g => some g
    | none => (dropLit "to".data cs).bind tail

/-- `re.search(r"Account\s*#\s*(\d+)", full_text)`. -/
def accountSearch (t : String) : Option (List Char) :=
  searchFirst matchAccount t.data

/-- `re.search(r"Beginning Balance[^\$]*\$([\d,]+\.?\d*)", full_text)`. -/
def beginBalanceSearch (t : String) : Option (List Char) :=
  searchFirst (matchBalance "Beginning Balance".data) t.data

/-- `re.search(r"Ending Balance[^\$]*\$([\d,]+\.?\d*)", full_text)`. -/
def endBalanceSearch (t : String) : Option (List Char) :=
  searchFirst (matchBalance "Ending Balance".data) t.data

/-- The start-of-period search (main.py line 84). -/
def periodStartSearch (t : String) : Option (List Char) :=
  searchFirst matchPeriodStart t.data

/-- The end-of-period search (main.py line 85). -/
def periodEndSearch (t : String) : Option (List Char) :=
  searchFirst matchPeriodEnd t.data

/-- The header extraction steps of `extract_statement_data`
(main.py lines 49-87). -/
def extract_header (t : String) : HeaderData :=
  { account_number :=
      match accountSearch t with
      | some d => String.mk d
      | none => "Unknown"
    beginning_balance :=
      match beginBalanceSearch t with
      | some a => "$" ++ String.mk a
      | none => "Unknown"
    ending_balance :=
      match endBalanceSearch t with
      | some a => "$" ++ String.mk a
      | none => "Unknown"
    statement_period :=
      match periodStartSearch t, periodEndSearch t with
      | some s, some e => String.mk s ++ " - " ++ String.mk e
      | _, _ => "Unknown" }

/-! ### The orchestrator (main.py lines 89-153) -/

/-- The accumulated transaction list: patterns 1-3 in order; the fallback
pattern 4 only when they produced nothing (`if not transactions:`,
main.py line 134). -/
def all_transactions (t : String) : List TransactionRecord :=
  let base := deposit_records t ++ atm_records t ++ check_records t
  if base.isEmpty then generic_records t else base

/-- Code-point lexicographic order on character lists (Python string `<=`,
the order used by `df.sort_values('Date')` on these string dates). -/
def lexLe : List Char → List Char → Bool
  | [], _ => true
  | _ :: _, [] => false
  | a :: as, b :: bs =>
    if a.toNat < b.toNat then true
    else if b.toNat < a.toNat then false
    else lexLe as bs

/-- The sort key relation of `df.sort_values('Date')`. -/
def txLe (r s : TransactionRecord) : Prop := lexLe r.Date.data s.Date.data = true

instance : DecidableRel txLe := fun r s => by unfold txLe; infer_instance

/-- `extract_statement_data` (main.py lines 45-153), from the concatenated
full text to the `(header_data, df)` pair; the DataFrame is modelled as the
list of its rows, sorted by `Date` (main.py lines 146-153). -/
def extract_statement_data (t : String) : HeaderData × List TransactionRecord :=
  let transactions := all_transactions t
  (extract_header t,
   if transactions.isEmpty then [] else List.insertionSort txLe transactions)

/-- The characters a captured amount can contain (claim C9): every pattern
captures its amount with `[\d,]+\.?\d*`. -/
def amtChar (c : Char) : Prop := c.isDigit = true ∨ c = ',' ∨ c = '.'

/-! ### Concrete inputs used by the claim theorems -/

/-- Two identical deposit lines (used for claim C1). -/
def dupInput : String := "Deposit A 05-15 $1.00\nDeposit A 05-15 $1.00\n"

/-- Three deposit lines with out-of-order dates (used for claim C5). -/
def sortInput : String :=
  "Deposit A 05-20 $1.00\nDeposit B 05-01 $2.00\nDeposit C 05-15 $3.00\n"

/-- A minimal ATM section with one block (used for claims C8 and C2). -/
def atmInput : String :=
  "ATM Withdrawals & Debits Account\nATM Withdrawal\nMain St\nCity ST 1234 05-14 05-15 $20.00\nTotal ATM"

/-- A line whose date token is not a valid month-day pair (used for claim C10). -/
def genInput : String := "99-99 mystery item $5.00"

/-! ## Helper lemmas -/

theorem isDigit_toNat {c : Char} (h : c.isDigit = true) :
    48 ≤ c.toNat ∧ c.toNat ≤ 57 := by
  simp only [Char.isDigit, Bool.and_eq_true, decide_eq_true_eq] at h
  obtain ⟨h1, h2⟩ := h
  exact ⟨h1, h2⟩

theorem isDigit_ne {c : Char} (h : c.isDigit = true) :
    c ≠ '$' ∧ c ≠ ',' ∧ c ≠ '.' ∧ c ≠ '-' ∧ c ≠ '(' ∧ c ≠ ')' := by
  refine ⟨?_, ?_, ?_, ?_, ?_, ?_⟩ <;>
    (intro hc; subst hc; exact absurd h (by decide))

theorem isDigit_not_space {c : Char} (h : c.isDigit = true) :
    isSpaceCh c = false := by
  simp only [isSpaceCh, Bool.or_eq_false_iff, decide_eq_false_iff_not]
  refine ⟨⟨⟨⟨⟨?_, ?_⟩, ?_⟩, ?_⟩, ?_⟩, ?_⟩ <;>
    (intro hc; subst hc; exact absurd h (by decide))

theorem isDigit_isNumCh {c : Char} (h : c.isDigit = true) :
    isNumCh c = true := by
  simp [isNumCh, h]

theorem dropWhile_eq_self_of_all {α : Type} (p : α → Bool) :
    ∀ l : List α, (∀ c ∈ l, p c = false) → l.dropWhile p = l
  | [], _ => rfl
  | c :: l, h => by
    simp [List.dropWhile_cons, h c (List.mem_cons_self c l)]

theorem stripChars_eq_self {l : List Char}
    (h : ∀ c ∈ l, isSpaceCh c = false) : stripChars l = l := by
  unfold stripChars
  rw [dropWhile_eq_self_of_all _ l h,
      dropWhile_eq_self_of_all _ l.reverse (fun c hc => h c (List.mem_reverse.mp hc)),
      List.reverse_reverse]

theorem mem_of_mem_dropWhile {α : Type} {p : α → Bool} :
    ∀ {l : List α} {c : α}, c ∈ l.dropWhile p → c ∈ l
  | [], _, h => h
  | a :: l, c, h => by
    rw [List.dropWhile_cons] at h
    split at h
    · exact List.mem_cons_of_mem a (mem_of_mem_dropWhile h)
    · exact h

theorem mem_of_mem_stripChars {l : List Char} {c : Char}
    (h : c ∈ stripChars l) : c ∈ l := by
  unfold stripChars at h
  rw [List.mem_reverse] at h
  have h2 := mem_of_mem_dropWhile h
  rw [List.mem_reverse] at h2
  exact mem_of_mem_dropWhile h2

theorem contains_eq_false_of_not_mem {l : List Char} {c : Char}
    (h : c ∉ l) : l.contains c = false := by
  cases hc : l.contains c with
  | false => rfl
  | true =>
    exact absurd (List.elem_iff.mp hc) h

theorem takeWhile_append_stop {p : Char → Bool} {x : Char} (hx : p x = false) :
    ∀ {l : List Char} (r : List Char), (∀ c ∈ l, p c = true) →
      (l ++ x :: r).takeWhile p = l ∧ (l ++ x :: r).dropWhile p = x :: r
  | [], r, _ => by simp [List.takeWhile_cons, List.dropWhile_cons, hx]
  | c :: l, r, h => by
    have hc : p c = true := h c (List.mem_cons_self c l)
    have ih := takeWhile_append_stop hx r (fun d hd => h d (List.mem_cons_of_mem c hd))
    simp [List.takeWhile_cons, List.dropWhile_cons, hc, ih.1, ih.2]

theorem mem_scanAll {α : Type} (m : List Char → Option (α × List Char)) :
    ∀ (fuel : ℕ) (cs : List Char) (a : α), a ∈ scanAll m fuel cs →
      ∃ input rest, m input = some (a, rest)
  | 0, _, _, h => absurd h (by simp [scanAll])
  | _ + 1, [], _, h => absurd h (by simp [scanAll])
  | fuel + 1, c :: cs, a, h => by
    rw [scanAll] at h
    split at h
    · rename_i b rest heq
      rcases List.mem_cons.mp h with h | h
      · exact ⟨c :: cs, rest, by rw [heq, h]⟩
      · exact mem_scanAll m fuel rest a h
    · exact mem_scanAll m fuel cs a h

theorem lexLe_total : ∀ x y : List Char, lexLe x y = true ∨ lexLe y x = true
  | [], y => Or.inl rfl
  | x :: xs, [] => Or.inr rfl
  | x :: xs, y :: ys => by
    rcases Nat.lt_trichotomy x.toNat y.toNat with h | h | h
    · left; simp [lexLe, h]
    · have hyx : ¬ y.toNat < x.toNat := by omega
      have hxy : ¬ x.toNat < y.toNat := by omega
      rcases lexLe_total xs ys with ih | ih
      · left; simp [lexLe, hxy, hyx, ih]
      · right; simp [lexLe, hxy, hyx, ih]
    · right; simp [lexLe, h]

theorem lexLe_trans : ∀ x y z : List Char,
    lexLe x y = true → lexLe y z = true → lexLe x z = true
  | [], _, _, _, _ => rfl
  | x :: xs, [], z, hxy, _ => by simp [lexLe] at hxy
  | x :: xs, y :: ys, [], _, hyz => by simp [lexLe] at hyz
  | x :: xs, y :: ys, z :: zs, hxy, hyz => by
    simp only [lexLe] at hxy hyz ⊢
    split at hxy
    · rename_i h1
      split at hyz
      · rename_i h2; simp [show x.toNat < z.toNat by omega]
      · split at hyz
        · exact absurd hyz (by simp)
        · rename_i h2 h3
          simp [show x.toNat < z.toNat by omega]
    · split at hxy
      · exact absurd hxy (by simp)
      · rename_i h1 h2
        split at hyz
        · rename_i h3; simp [show x.toNat < z.toNat by omega]
        · split at hyz
          · exact absurd hyz (by simp)
          · rename_i h3 h4
            have hxz : ¬ x.toNat < z.toNat := by omega
            have hzx : ¬ z.toNat < x.toNat := by omega
            simp [hxz, hzx, lexLe_trans xs ys zs hxy hyz]

instance : IsTotal TransactionRecord txLe :=
  ⟨fun r s => lexLe_total r.Date.data s.Date.data⟩

instance : IsTrans TransactionRecord txLe :=
  ⟨fun r s u => lexLe_trans r.Date.data s.Date.data u.Date.data⟩

/-- The transaction list returned by the orchestrator is sorted by `txLe`. -/
theorem extract_sorted (t : String) :
    List.Sorted txLe (extract_statement_data t).2 := by
  unfold extract_statement_data
  dsimp only
  split
  · exact List.sorted_nil
  · exact List.sorted_insertionSort txLe (all_transactions t)

/-- The transaction list returned by the orchestrator is a permutation of the
accumulated records (nothing is removed or added by the final sort). -/
theorem extract_perm (t : String) :
    ((extract_statement_data t).2).Perm (all_transactions t) := by
  unfold extract_statement_data
  dsimp only
  split
  · rename_i h
    rw [List.isEmpty_iff.mp h]
  · exact List.perm_insertionSort txLe (all_transactions t)

/-! ### Facts about the decimal rendering -/

theorem toDigitChar_toNat {d : ℕ} (h : d < 10) : (toDigitChar d).toNat = 48 + d := by
  interval_cases d <;> decide

theorem toDigitChar_isDigit {d : ℕ} (h : d < 10) : (toDigitChar d).isDigit = true := by
  interval_cases d <;> decide

theorem natRepr_all_digit (a : ℕ) : ∀ c ∈ natRepr a, c.isDigit = true := by
  intro c hc
  unfold natRepr at hc
  split at hc
  · rw [List.mem_singleton] at hc
    subst hc; decide
  · rw [List.mem_reverse, List.mem_map] at hc
    obtain ⟨d, hd, rfl⟩ := hc
    exact toDigitChar_isDigit (Nat.digits_lt_base (by norm_num) hd)

theorem natVal_append_singleton (l : List Char) (c : Char) :
    natVal (l ++ [c]) = 10 * natVal l + (c.toNat - 48) := by
  unfold natVal
  rw [List.foldl_append]
  rfl

theorem natVal_revMap :
    ∀ l : List ℕ, (∀ d ∈ l, d < 10) →
      natVal ((l.map toDigitChar).reverse) = Nat.ofDigits 10 l
  | [], _ => rfl
  | d :: ds, h => by
    have hd : d < 10 := h d (List.mem_cons_self d ds)
    have ih := natVal_revMap ds (fun e he => h e (List.mem_cons_of_mem d he))
    rw [List.map_cons, List.reverse_cons, natVal_append_singleton, ih,
        toDigitChar_toNat hd, Nat.ofDigits_cons]
    omega

theorem natVal_natRepr (a : ℕ) : natVal (natRepr a) = a := by
  unfold natRepr
  split
  · rename_i h; rw [h]; rfl
  · rw [natVal_revMap _ (fun d hd => Nat.digits_lt_base (by norm_num) hd),
        Nat.ofDigits_digits]

theorem groupRev_filter (p : Char → Bool) (hp : p ',' = false) :
    ∀ l : List Char, (groupRev l).filter p = l.filter p
  | a :: b :: c :: d :: rest => by
    have ih := groupRev_filter p hp (d :: rest)
    simp [groupRev, List.filter_cons, hp, ih]
  | [] => rfl
  | [a] => rfl
  | [a, b] => rfl
  | [a, b, c] => rfl

theorem groupedChars_filter (p : Char → Bool) (hp : p ',' = false) (a : ℕ) :
    (groupedChars a).filter p = (natRepr a).filter p := by
  unfold groupedChars
  rw [List.filter_reverse, groupRev_filter p hp, List.filter_reverse,
      List.reverse_reverse]

theorem mem_groupedChars {a : ℕ} {c : Char} (h : c ∈ groupedChars a) :
    c = ',' ∨ c ∈ natRepr a := by
  by_cases hc : c = ','
  · exact Or.inl hc
  · right
    have hfilter : c ∈ (groupedChars a).filter (fun d => d ≠ ',') := by
      simp [List.mem_filter, h, hc]
    rw [groupedChars_filter (fun d => d ≠ ',') (by simp) a] at hfilter
    exact (List.mem_filter.mp hfilter).1

theorem takeWhile_all {α : Type} {p : α → Bool} :
    ∀ l : List α, (∀ c ∈ l, p c = true) → l.takeWhile p = l ∧ l.dropWhile p = []
  | [], _ => ⟨rfl, rfl⟩
  | c :: l, h => by
    have hc : p c = true := h c (List.mem_cons_self c l)
    have ih := takeWhile_all l (fun d hd => h d (List.mem_cons_of_mem c hd))
    simp [List.takeWhile_cons, List.dropWhile_cons, hc, ih.1, ih.2]

theorem contains_eq_true_of_mem {l : List Char} {c : Char} (h : c ∈ l) :
    l.contains c = true :=
  List.elem_iff.mpr h

theorem natRepr_ne_nil (a : ℕ) : natRepr a ≠ [] := by
  unfold natRepr
  split
  · simp
  · simp [Nat.digits_ne_nil_iff_ne_zero.mpr (by assumption)]

theorem pyFloat_eq_core {cs : List Char} (h : ∀ c ∈ cs, c ≠ '-') :
    pyFloat cs = pyFloatCore cs := by
  cases cs with
  | nil => rfl
  | cons c r =>
    have hc : c ≠ '-' := h c (List.mem_cons_self c r)
    unfold pyFloat
    split
    · rename_i r2 heq
      injection heq with h1 h2
      exact absurd h1 hc
    · rfl

theorem pyFloatCore_digits {ds : List Char} (hds : ∀ c ∈ ds, c.isDigit = true)
    (hne : ds ≠ []) : pyFloatCore ds = some (natVal ds : ℚ) := by
  have hdot : ∀ c ∈ ds, (fun c => decide (c ≠ '.')) c = true := fun c hc => by
    simp [(isDigit_ne (hds c hc)).2.2.1]
  obtain ⟨htake, hdrop⟩ := takeWhile_all ds hdot
  have hcond : (!ds.isEmpty && ds.all Char.isDigit) = true := by
    cases ds with
    | nil => exact absurd rfl hne
    | cons c l =>
      simp only [List.isEmpty_cons, Bool.not_false, Bool.true_and]
      exact List.all_eq_true.mpr hds
  unfold pyFloatCore
  rw [htake, hdrop]
  dsimp only
  rw [if_pos hcond, Rat.mkRat_eq_div]
  push_cast
  norm_num

theorem pyFloatCore_digits_dot00 {ds : List Char} (hds : ∀ c ∈ ds, c.isDigit = true) :
    pyFloatCore (ds ++ ['.', '0', '0']) = some (natVal ds : ℚ) := by
  have hdot : ∀ c ∈ ds, (fun c => decide (c ≠ '.')) c = true := fun c hc => by
    simp [(isDigit_ne (hds c hc)).2.2.1]
  have hx : (fun c => decide (c ≠ '.')) '.' = false := by simp
  obtain ⟨htake, hdrop⟩ := takeWhile_append_stop hx ['0', '0'] hdot
  have h00 : natVal ['0', '0'] = 0 := by decide
  have hcond : ((!ds.isEmpty || !(['0', '0'] : List Char).isEmpty) &&
      ds.all Char.isDigit && (['0', '0'] : List Char).all Char.isDigit) = true := by
    simp only [Bool.and_eq_true, Bool.or_eq_true]
    exact ⟨⟨Or.inr (by decide), List.all_eq_true.mpr hds⟩, by decide⟩
  unfold pyFloatCore
  rw [htake, hdrop]
  dsimp only
  rw [if_pos rfl, if_neg (show ¬((['0', '0'] : List Char).contains '.' = true) by decide),
      if_pos hcond, h00]
  rw [Rat.mkRat_eq_div]
  push_cast
  rw [add_zero, mul_div_assoc]
  norm_num

theorem parse_dollarFmt (a : ℕ) : parse_currency (dollarFmt a) = (a : ℚ) := by
  have hdig := natRepr_all_digit a
  have hD : ∀ c ∈ natRepr a ++ ['.', '0', '0'], c.isDigit = true ∨ c = '.' ∨ c = '0' := by
    intro c hc
    rcases List.mem_append.mp hc with hc | hc
    · exact Or.inl (hdig c hc)
    · simp only [List.mem_cons, List.mem_singleton, List.not_mem_nil, or_false] at hc
      rcases hc with hc | hc | hc
      · exact Or.inr (Or.inl hc)
      · exact Or.inr (Or.inr hc)
      · exact Or.inr (Or.inr hc)
  have h1 : ('$' :: groupedChars a ++ ['.', '0', '0']).filter (fun c => c ≠ '$' && c ≠ ',')
      = natRepr a ++ ['.', '0', '0'] := by
    have hfG : (groupedChars a).filter (fun c => c ≠ '$' && c ≠ ',') = natRepr a := by
      rw [groupedChars_filter _ (by decide) a]
      exact List.filter_eq_self.mpr (fun c hc => by
        have h := isDigit_ne (hdig c hc)
        simp [h.1, h.2.1])
    rw [List.cons_append, List.filter_cons, List.filter_append, hfG]
    have hfD : List.filter (fun c => c ≠ '$' && c ≠ ',') ['.', '0', '0'] = ['.', '0', '0'] := by
      decide
    rw [hfD, if_neg (by decide)]
  have hnospace : ∀ c ∈ natRepr a ++ ['.', '0', '0'], isSpaceCh c = false := by
    intro c hc
    rcases hD c hc with h | h | h
    · exact isDigit_not_space h
    · subst h; decide
    · subst h; decide
  have h2 : stripChars (natRepr a ++ ['.', '0', '0']) = natRepr a ++ ['.', '0', '0'] :=
    stripChars_eq_self hnospace
  have h3 : (natRepr a ++ ['.', '0', '0']).contains '(' = false := by
    apply contains_eq_false_of_not_mem
    intro hmem
    rcases hD _ hmem with h | h | h
    · exact absurd h (by decide)
    · exact absurd h (by decide)
    · exact absurd h (by decide)
  have h4 : (natRepr a ++ ['.', '0', '0']).filter isNumCh = natRepr a ++ ['.', '0', '0'] :=
    List.filter_eq_self.mpr (fun c hc => by
      rcases hD c hc with h | h | h
      · exact isDigit_isNumCh h
      · subst h; decide
      · subst h; decide)
  have h5 : pyFloat (natRepr a ++ ['.', '0', '0']) = some (a : ℚ) := by
    rw [pyFloat_eq_core (fun c hc => by
        rcases hD c hc with h | h | h
        · exact (isDigit_ne h).2.2.2.1
        · subst h; decide
        · subst h; decide),
      pyFloatCore_digits_dot00 hdig, natVal_natRepr]
  show parse_currency_chars ('$' :: groupedChars a ++ ['.', '0', '0']) = (a : ℚ)
  unfold parse_currency_chars
  rw [if_neg (by simp)]
  dsimp only
  rw [h1, h2, h3, Bool.false_and, if_neg (by simp), h4, h5]
  simp

theorem parse_parenFmt (a : ℕ) : parse_currency (parenFmt a) = -(a : ℚ) := by
  have hdig := natRepr_all_digit a
  have hP : ∀ c ∈ ('(' : Char) :: natRepr a ++ [')'],
      c.isDigit = true ∨ c = '(' ∨ c = ')' := by
    intro c hc
    rcases List.mem_cons.mp hc with hc | hc
    · exact Or.inr (Or.inl hc)
    · rcases List.mem_append.mp hc with hc | hc
      · exact Or.inl (hdig c hc)
      · rw [List.mem_singleton] at hc; exact Or.inr (Or.inr hc)
  have h1 : (('(' : Char) :: natRepr a ++ [')']).filter (fun c => c ≠ '$' && c ≠ ',')
      = '(' :: natRepr a ++ [')'] :=
    List.filter_eq_self.mpr (fun c hc => by
      rcases hP c hc with h | h | h
      · have hne := isDigit_ne h
        simp [hne.1, hne.2.1]
      · subst h; decide
      · subst h; decide)
  have h2 : stripChars (('(' : Char) :: natRepr a ++ [')']) = '(' :: natRepr a ++ [')'] :=
    stripChars_eq_self (fun c hc => by
      rcases hP c hc with h | h | h
      · exact isDigit_not_space h
      · subst h; decide
      · subst h; decide)
  have h3 : (('(' : Char) :: natRepr a ++ [')']).contains '(' = true :=
    contains_eq_true_of_mem (List.mem_cons_self _ _)
  have h3r : (('(' : Char) :: natRepr a ++ [')']).contains ')' = true :=
    contains_eq_true_of_mem (by
      apply List.mem_cons_of_mem
      exact List.mem_append.mpr (Or.inr (List.mem_singleton.mpr rfl)))
  have h4 : (('(' : Char) :: natRepr a ++ [')']).filter (fun c => c ≠ '(' && c ≠ ')')
      = natRepr a := by
    rw [List.cons_append, List.filter_cons, List.filter_append]
    have hfR : (natRepr a).filter (fun c => c ≠ '(' && c ≠ ')') = natRepr a :=
      List.filter_eq_self.mpr (fun c hc => by
        have hne := isDigit_ne (hdig c hc)
        simp [hne.2.2.2.2.1, hne.2.2.2.2.2])
    rw [hfR]
    norm_num
  have h5 : (natRepr a).filter isNumCh = natRepr a :=
    List.filter_eq_self.mpr (fun c hc => isDigit_isNumCh (hdig c hc))
  have h6 : pyFloat (natRepr a) = some (a : ℚ) := by
    rw [pyFloat_eq_core (fun c hc => (isDigit_ne (hdig c hc)).2.2.2.1),
      pyFloatCore_digits hdig (natRepr_ne_nil a), natVal_natRepr]
  show parse_currency_chars ('(' :: natRepr a ++ [')']) = -(a : ℚ)
  unfold parse_currency_chars
  rw [if_neg (by simp)]
  dsimp only
  rw [h1, h2, h3, h3r, Bool.true_and, if_pos rfl, h4, h5, h6]
  rfl

/-! ### Non-negativity of the amounts captured by the patterns (claim C9)

Every pattern captures its amount with `[\d,]+\.?\d*`, so the captured string
contains only digits, commas and at most one dot; `parse_currency` of such a
string is never negative. -/

theorem munchAmount_chars {cs amt r : List Char}
    (h : munchAmount cs = some (amt, r)) : ∀ c ∈ amt, amtChar c := by
  unfold munchAmount at h
  dsimp only at h
  split at h
  · exact absurd h (by simp)
  · split at h
    · rename_i r2 heq
      injection h with h
      injection h with h1 h2
      subst h1
      intro c hc
      rcases List.mem_append.mp hc with hc | hc
      · have := List.mem_takeWhile_imp hc
        rcases Bool.or_eq_true _ _ |>.mp this with hd | hd
        · exact Or.inl hd
        · exact Or.inr (Or.inl (by simpa using hd))
      · rcases List.mem_cons.mp hc with hc | hc
        · exact Or.inr (Or.inr hc)
        · exact Or.inl (List.mem_takeWhile_imp hc)
    · injection h with h
      injection h with h1 h2
      subst h1
      intro c hc
      have := List.mem_takeWhile_imp hc
      rcases Bool.or_eq_true _ _ |>.mp this with hd | hd
      · exact Or.inl hd
      · exact Or.inr (Or.inl (by simpa using hd))

theorem pyFloatCore_nonneg {cs : List Char} {v : ℚ}
    (h : pyFloatCore cs = some v) : 0 ≤ v := by
  unfold pyFloatCore at h
  dsimp only at h
  split at h
  · split at h
    · injection h with h
      subst h
      rw [Rat.mkRat_eq_div]
      positivity
    · exact absurd h (by simp)
  · split at h
    · split at h
      · exact absurd h (by simp)
      · split at h
        · injection h with h
          subst h
          rw [Rat.mkRat_eq_div]
          positivity
        · exact absurd h (by simp)
    · exact absurd h (by simp)

theorem parse_currency_chars_nonneg {cs : List Char}
    (h : ∀ c ∈ cs, amtChar c) : 0 ≤ parse_currency_chars cs := by
  by_cases hcs : cs.isEmpty
  · unfold parse_currency_chars
    rw [if_pos hcs]
  · unfold parse_currency_chars
    rw [if_neg hcs]
    dsimp only
    have hm1 : ∀ c ∈ cs.filter (fun c => c ≠ '$' && c ≠ ','), amtChar c :=
      fun c hc => h c (List.mem_filter.mp hc).1
    have hm2 : ∀ c ∈ stripChars (cs.filter (fun c => c ≠ '$' && c ≠ ',')), amtChar c :=
      fun c hc => hm1 c (mem_of_mem_stripChars hc)
    have hneg : (stripChars (cs.filter (fun c => c ≠ '$' && c ≠ ','))).contains '(' = false := by
      apply contains_eq_false_of_not_mem
      intro hmem
      rcases hm2 _ hmem with hd | hd | hd
      · exact absurd hd (by decide)
      · exact absurd hd (by decide)
      · exact absurd hd (by decide)
    rw [hneg, Bool.false_and, if_neg (by simp)]
    have hm4 : ∀ c ∈ (stripChars (cs.filter (fun c => c ≠ '$' && c ≠ ','))).filter isNumCh,
        amtChar c := fun c hc => hm2 c (List.mem_filter.mp hc).1
    have hnm : ∀ c ∈ (stripChars (cs.filter (fun c => c ≠ '$' && c ≠ ','))).filter isNumCh,
        c ≠ '-' := by
      intro c hc
      rcases hm4 c hc with hd | hd | hd
      · exact (isDigit_ne hd).2.2.2.1
      · subst hd; decide
      · subst hd; decide
    rw [pyFloat_eq_core hnm]
    cases hv : pyFloatCore ((stripChars (cs.filter (fun c => c ≠ '$' && c ≠ ','))).filter isNumCh) with
    | none => exact le_refl 0
    | some v =>
      have := pyFloatCore_nonneg hv
      simpa using this

theorem p1Tail_amount {cs d amt r : List Char}
    (h : p1Tail cs = some (d, amt, r)) : ∀ c ∈ amt, amtChar c := by
  unfold p1Tail at h
  simp only [Option.bind_eq_some, Option.map_eq_some'] at h
  obtain ⟨⟨sp, r1⟩, h1, ⟨dd, r2⟩, h2, ⟨sp2, r3⟩, h3, r4, h4, ⟨amt2, r5⟩, h5, h6⟩ := h
  obtain ⟨hd, hamt, hr⟩ : dd = d ∧ amt2 = amt ∧ r5 = r := by
    injection h6 with h6a h6b
    injection h6b with h6b h6c
    exact ⟨h6a, h6b, h6c⟩
  subst hamt
  exact munchAmount_chars h5

theorem p1Lazy_amount :
    ∀ (cs : List Char) (acc g d amt r : List Char),
      p1Lazy acc cs = some (g, d, amt, r) → ∀ c ∈ amt, amtChar c
  | [], acc, g, d, amt, r, h => by
    unfold p1Lazy at h
    split at h
    · rename_i dd aa rr heq
      simp only [Option.some.injEq, Prod.mk.injEq] at h
      obtain ⟨h1, h2, h3, h4⟩ := h
      subst h3
      exact p1Tail_amount heq
    · exact absurd h (by simp)
  | c :: cs, acc, g, d, amt, r, h => by
    unfold p1Lazy at h
    split at h
    · rename_i dd aa rr heq
      simp only [Option.some.injEq, Prod.mk.injEq] at h
      obtain ⟨h1, h2, h3, h4⟩ := h
      subst h3
      exact p1Tail_amount heq
    · split at h
      · exact absurd h (by simp)
      · exact p1Lazy_amount cs (acc ++ [c]) g d amt r h

theorem matchDeposit_amount {cs : List Char} {m : DepositMatch} {r : List Char}
    (h : matchDeposit cs = some (m, r)) : ∀ c ∈ m.amount, amtChar c := by
  unfold matchDeposit at h
  simp only [Option.bind_eq_some, Option.map_eq_some'] at h
  obtain ⟨r1, h1, ⟨g, d, amt, rest⟩, h2, h3⟩ := h
  have hamt : m.amount = amt := by
    have : m = { desc := "Deposit".data ++ g, date := d, amount := amt } := by
      injection h3 with h3a h3b
      exact h3a.symm
    rw [this]
  rw [hamt]
  exact p1Lazy_amount r1 [] g d amt rest h2

theorem atmTail_amount {cs d1 d2 amt r : List Char}
    (h : atmTail cs = some (d1, d2, amt, r)) : ∀ c ∈ amt, amtChar c := by
  unfold atmTail at h
  simp only [Option.bind_eq_some, Option.map_eq_some'] at h
  obtain ⟨⟨dd1, r1⟩, h1, ⟨sp, r2⟩, h2, ⟨dd2, r3⟩, h3, ⟨sp2, r4⟩, h4, r5, h5,
    ⟨amt2, r6⟩, h6, h7⟩ := h
  have hamt : amt2 = amt := by
    simp only [Prod.mk.injEq] at h7
    exact h7.2.2.1
  subst hamt
  exact munchAmount_chars h6

theorem atmLazy_amount :
    ∀ (cs d1 d2 amt r : List Char),
      atmLazy cs = some (d1, d2, amt, r) → ∀ c ∈ amt, amtChar c
  | [], d1, d2, amt, r, h => by
    unfold atmLazy at h
    split at h
    · rename_i res heq
      rw [h] at heq
      exact atmTail_amount heq
    · exact absurd h (by simp)
  | c :: cs, d1, d2, amt, r, h => by
    unfold atmLazy at h
    split at h
    · rename_i res heq
      rw [h] at heq
      exact atmTail_amount heq
    · split at h
      · exact absurd h (by simp)
      · exact atmLazy_amount cs d1 d2 amt r h

theorem matchAtm_amount {cs : List Char} {m : AtmMatch} {r : List Char}
    (h : matchAtm cs = some (m, r)) : ∀ c ∈ m.amount, amtChar c := by
  unfold matchAtm at h
  simp only [Option.bind_eq_some, Option.map_eq_some'] at h
  obtain ⟨r1, h1, r2, h2, h3⟩ := h
  split at h3
  · exact absurd h3 (by simp)
  · simp only [Option.bind_eq_some, Option.map_eq_some'] at h3
    obtain ⟨r4, h4, ⟨dd1, dd2, amt, rest⟩, h5, h6⟩ := h3
    have hamt : m.amount = amt := by
      have hm : m = AtmMatch.mk (r2.takeWhile (· ≠ '\n')) dd1 dd2 amt := by
        injection h6 with h6a h6b
        exact h6a.symm
      rw [hm]
    rw [hamt]
    exact atmLazy_amount r4 dd1 dd2 amt rest h5

theorem matchCheck_amount {cs : List Char} {m : CheckMatch} {r : List Char}
    (h : matchCheck cs = some (m, r)) : ∀ c ∈ m.amount, amtChar c := by
  unfold matchCheck at h
  simp only [Option.bind_eq_some, Option.map_eq_some'] at h
  obtain ⟨⟨d, r1⟩, h1, ⟨sp, r2⟩, h2, ⟨num, r3⟩, h3, ⟨sp2, r4⟩, h4, ⟨amt, r5⟩, h5,
    ⟨sp3, r6⟩, h6, ⟨ref, r7⟩, h7, h8⟩ := h
  have hamt : m.amount = amt := by
    have : m = { date := d, num := num, amount := amt, ref := ref } := by
      injection h8 with h8a h8b
      exact h8a.symm
    rw [this]
  rw [hamt]
  exact munchAmount_chars h5

theorem genTail_amount {cs amt r : List Char}
    (h : genTail cs = some (amt, r)) : ∀ c ∈ amt, amtChar c := by
  unfold genTail at h
  simp only [Option.bind_eq_some] at h
  obtain ⟨⟨sp, r1⟩, h1, r2, h2, h3⟩ := h
  exact munchAmount_chars h3

theorem genLazy_amount :
    ∀ (cs : List Char) (acc g amt r : List Char),
      genLazy acc cs = some (g, amt, r) → ∀ c ∈ amt, amtChar c
  | [], acc, g, amt, r, h => by
    unfold genLazy at h
    split at h
    · rename_i aa rr heq
      simp only [Option.some.injEq, Prod.mk.injEq] at h
      obtain ⟨h1, h2, h3⟩ := h
      subst h2
      exact genTail_amount heq
    · exact absurd h (by simp)
  | c :: cs, acc, g, amt, r, h => by
    unfold genLazy at h
    split at h
    · rename_i aa rr heq
      simp only [Option.some.injEq, Prod.mk.injEq] at h
      obtain ⟨h1, h2, h3⟩ := h
      subst h2
      exact genTail_amount heq
    · split at h
      · exact absurd h (by simp)
      · exact genLazy_amount cs (acc ++ [c]) g amt r h

theorem genSplitLoop_amount :
    ∀ (sp rest : List Char) (n : ℕ) (g amt r : List Char),
      genSplitLoop sp rest n = some (g, amt, r) → ∀ c ∈ amt, amtChar c
  | sp, rest, 0, g, amt, r, h => absurd h (by simp [genSplitLoop])
  | sp, rest, n + 1, g, amt, r, h => by
    unfold genSplitLoop at h
    split at h
    · rename_i res heq
      rw [h] at heq
      exact genLazy_amount (sp.drop (n + 1) ++ rest) [] g amt r heq
    · exact genSplitLoop_amount sp rest n g amt r h

theorem matchGeneric_amount {cs : List Char} {m : GenericMatch} {r : List Char}
    (h : matchGeneric cs = some (m, r)) : ∀ c ∈ m.amount, amtChar c := by
  unfold matchGeneric at h
  simp only [Option.bind_eq_some, Option.map_eq_some'] at h
  obtain ⟨⟨d, r1⟩, h1, ⟨sp, rest⟩, h2, ⟨g, amt, r3⟩, h3, h4⟩ := h
  have hamt : m.amount = amt := by
    have : m = { date := d, desc := g, amount := amt } := by
      injection h4 with h4a h4b
      exact h4a.symm
    rw [this]
  rw [hamt]
  exact genSplitLoop_amount sp rest sp.length g amt r3 h3

/-! ### Record-level consequences -/

theorem deposit_records_nonneg {t : String} {r : TransactionRecord}
    (h : r ∈ deposit_records t) : 0 ≤ r.Amount := by
  unfold deposit_records at h
  obtain ⟨m, hm, rfl⟩ := List.mem_map.mp h
  obtain ⟨input, rest, hmatch⟩ := mem_scanAll _ _ _ _ hm
  exact parse_currency_chars_nonneg (matchDeposit_amount hmatch)

theorem atm_records_nonneg {t : String} {r : TransactionRecord}
    (h : r ∈ atm_records t) : 0 ≤ r.Amount := by
  unfold atm_records at h
  split at h
  · exact absurd h (List.not_mem_nil r)
  · obtain ⟨m, hm, rfl⟩ := List.mem_map.mp h
    obtain ⟨input, rest, hmatch⟩ := mem_scanAll _ _ _ _ hm
    exact parse_currency_chars_nonneg (matchAtm_amount hmatch)

theorem check_records_nonneg {t : String} {r : TransactionRecord}
    (h : r ∈ check_records t) : 0 ≤ r.Amount := by
  unfold check_records at h
  split at h
  · exact absurd h (List.not_mem_nil r)
  · obtain ⟨m, hm, rfl⟩ := List.mem_map.mp h
    obtain ⟨input, rest, hmatch⟩ := mem_scanAll _ _ _ _ hm
    exact parse_currency_chars_nonneg (matchCheck_amount hmatch)

theorem generic_records_nonneg {t : String} {r : TransactionRecord}
    (h : r ∈ generic_records t) : 0 ≤ r.Amount := by
  unfold generic_records at h
  obtain ⟨m, hm, rfl⟩ := List.mem_map.mp h
  obtain ⟨input, rest, hmatch⟩ := mem_scanAll _ _ _ _ hm
  exact parse_currency_chars_nonneg (matchGeneric_amount hmatch)

/-! ## Claim theorems -/

/-- C1, counterexample: the orchestrator does NOT deduplicate.  On an input
with two identical deposit lines the returned sequence contains two records
that agree in date, description, type and amount. -/
theorem no_dedup_counterexample :
    ¬ ((extract_statement_data dupInput).2.Nodup) := by
  have h : (extract_statement_data dupInput).2 =
      [TransactionRecord.mk "05-15" "Deposit A" "Credit" 1,
       TransactionRecord.mk "05-15" "Deposit A" "Credit" 1] := rfl
  rw [h]
  simp

/-- C1, amended: the returned transaction sequence is the accumulated records
of the patterns sorted by date, with multiplicity preserved (a permutation of
the accumulated list); no deduplication is performed. -/
theorem extract_no_dedup_perm :
    ∀ t : String, ((extract_statement_data t).2).Perm (all_transactions t) :=
  extract_perm

/-- C2: pattern 4 (the generic fallback) contributes records exactly when
patterns 1-3 together produced none: if they produced at least one record the
result is exactly their records (the fallback contributes zero records), and
if they produced none the result is exactly the fallback's records. -/
theorem fallback_exclusivity (t : String) :
    (deposit_records t ++ atm_records t ++ check_records t ≠ [] →
      all_transactions t = deposit_records t ++ atm_records t ++ check_records t) ∧
    (deposit_records t ++ atm_records t ++ check_records t = [] →
      all_transactions t = generic_records t) := by
  unfold all_transactions
  constructor
  · intro h
    rw [if_neg (by simpa [List.isEmpty_iff] using h)]
  · intro h
    rw [if_pos (by simpa [List.isEmpty_iff] using h)]

/-- Witness for C2: on `dupInput` patterns 1-3 fire and the fallback is
suppressed; on a blank input they do not and the fallback list is used. -/
theorem fallback_exclusivity_witness :
    (deposit_records dupInput ++ atm_records dupInput ++ check_records dupInput ≠ [] ∧
      all_transactions dupInput =
        deposit_records dupInput ++ atm_records dupInput ++ check_records dupInput) ∧
    (deposit_records "x" ++ atm_records "x" ++ check_records "x" = [] ∧
      all_transactions "x" = generic_records "x") := by
  have h1 : deposit_records dupInput ++ atm_records dupInput ++ check_records dupInput =
      [TransactionRecord.mk "05-15" "Deposit A" "Credit" 1,
       TransactionRecord.mk "05-15" "Deposit A" "Credit" 1] := rfl
  have hne : deposit_records dupInput ++ atm_records dupInput ++ check_records dupInput ≠ [] := by
    rw [h1]
    simp
  exact ⟨⟨hne, (fallback_exclusivity dupInput).1 hne⟩,
    ⟨rfl, (fallback_exclusivity "x").2 rfl⟩⟩

/-- C3: `parse_currency` round-trips formatted amounts: for every natural
amount `a`, parsing `"$" ++ grouped a ++ ".00"` returns `a`, and parsing
`"(" ++ str a ++ ")"` returns `-a`. -/
theorem parse_currency_roundtrip :
    ∀ a : ℕ, parse_currency (dollarFmt a) = (a : ℚ) ∧
      parse_currency (parenFmt a) = -(a : ℚ) :=
  fun a => ⟨parse_dollarFmt a, parse_parenFmt a⟩

/-- C4: `parse_currency` is total (always returns a value), and on the spec's
examples: empty string and unparseable text give `0`, and a trailing
annotation is stripped so that `"1,234.56 CR"` gives `1234.56`. -/
theorem parse_currency_total_examples :
    (∀ s : String, ∃ v : ℚ, parse_currency s = v) ∧
    parse_currency "" = 0 ∧ parse_currency "garbage" = 0 ∧
    parse_currency "1,234.56 CR" = 1234.56 := by
  refine ⟨fun s => ⟨parse_currency s, rfl⟩, rfl, rfl, ?_⟩
  rw [show parse_currency "1,234.56 CR" = mkRat 123456 100 from rfl, Rat.mkRat_eq_div]
  norm_num

/-- C5: the returned transaction sequence is always sorted ascending by the
`Date` string under lexicographic (code-point) order, and dates
"05-20", "05-01", "05-15" come back in the order "05-01", "05-15", "05-20". -/
theorem extract_sorted_by_date :
    (∀ t : String, List.Sorted txLe (extract_statement_data t).2) ∧
    (extract_statement_data sortInput).2.map (fun r => r.Date) =
      ["05-01", "05-15", "05-20"] :=
  ⟨extract_sorted, rfl⟩

/-- C6: the header's statement period is populated (as "start - end") exactly
when both the start-of-period and end-of-period searches succeed; if either
fails it stays "Unknown" and is never a partial range. -/
theorem statement_period_all_or_nothing (t : String) :
    ((extract_header t).statement_period ≠ "Unknown" →
      ∃ s e, periodStartSearch t = some s ∧ periodEndSearch t = some e ∧
        (extract_header t).statement_period = String.mk s ++ " - " ++ String.mk e) ∧
    ((periodStartSearch t = none ∨ periodEndSearch t = none) →
      (extract_header t).statement_period = "Unknown") := by
  have hsp : (extract_header t).statement_period =
      (match periodStartSearch t, periodEndSearch t with
       | some s, some e => String.mk s ++ " - " ++ String.mk e
       | _, _ => "Unknown") := rfl
  constructor
  · intro h
    rw [hsp] at h
    cases hs : periodStartSearch t with
    | none =>
      rw [hs] at h
      exact absurd rfl h
    | some s =>
      cases he : periodEndSearch t with
      | none =>
        rw [hs, he] at h
        exact absurd rfl h
      | some e =>
        refine ⟨s, e, rfl, rfl, ?_⟩
        rw [hsp, hs, he]
  · intro h
    rw [hsp]
    cases hs : periodStartSearch t with
    | none => rfl
    | some s =>
      cases he : periodEndSearch t with
      | none => rfl
      | some e =>
        rcases h with h | h
        · rw [hs] at h
          exact absurd h (by simp)
        · rw [he] at h
          exact absurd h (by simp)

/-- Witness for C6: a text with both period phrases yields the full range, and
a text with neither stays "Unknown". -/
theorem statement_period_all_or_nothing_witness :
    ((extract_header "from January 1, 2024 through January 31, 2024").statement_period ≠
        "Unknown" ∧
      (∃ s e, periodStartSearch "from January 1, 2024 through January 31, 2024" = some s ∧
        periodEndSearch "from January 1, 2024 through January 31, 2024" = some e ∧
        (extract_header "from January 1, 2024 through January 31, 2024").statement_period =
          String.mk s ++ " - " ++ String.mk e)) ∧
    (periodStartSearch "hello world" = none ∧
      (extract_header "hello world").statement_period = "Unknown") := by
  have hne : (extract_header "from January 1, 2024 through January 31, 2024").statement_period ≠
      "Unknown" := by
    have h : (extract_header "from January 1, 2024 through January 31, 2024").statement_period =
        "January 1, 2024 - January 31, 2024" := rfl
    rw [h]
    simp
  exact ⟨⟨hne, (statement_period_all_or_nothing _).1 hne⟩,
    ⟨rfl, (statement_period_all_or_nothing "hello world").2 (Or.inl rfl)⟩⟩

/-- C7: when no pattern matches anything and no header label is found, the
engine returns the all-"Unknown" header together with the empty sequence. -/
theorem empty_input_extraction (t : String)
    (h1 : deposit_records t = []) (h2 : atm_records t = [])
    (h3 : check_records t = []) (h4 : generic_records t = [])
    (h5 : accountSearch t = none) (h6 : beginBalanceSearch t = none)
    (h7 : endBalanceSearch t = none) (h8 : periodStartSearch t = none)
    (h9 : periodEndSearch t = none) :
    extract_statement_data t =
      (HeaderData.mk "Unknown" "Unknown" "Unknown" "Unknown", []) := by
  unfold extract_statement_data all_transactions extract_header
  rw [h1, h2, h3, h4, h5, h6, h7, h8, h9]
  simp

/-- Witness for C7 at the unrecognizable buffer "hello world". -/
theorem empty_input_extraction_witness :
    deposit_records "hello world" = [] ∧ generic_records "hello world" = [] ∧
    extract_statement_data "hello world" =
      (HeaderData.mk "Unknown" "Unknown" "Unknown" "Unknown", []) :=
  ⟨rfl, rfl, empty_input_extraction "hello world" rfl rfl rfl rfl rfl rfl rfl rfl rfl⟩

/-- C8: every record produced by the ATM pattern comes from a block match and
has type Debit, date equal to the SECOND captured date (the date paid), and
description "ATM Withdrawal - " followed by the stripped location line. -/
theorem atm_record_shape (t : String) (r : TransactionRecord)
    (h : r ∈ atm_records t) :
    ∃ m : AtmMatch, (∃ input rest, matchAtm input = some (m, rest)) ∧
      r = mkAtmRecord m ∧ r.«Type» = "Debit" ∧ r.Date = String.mk m.datePaid ∧
      r.Description = "ATM Withdrawal - " ++ String.mk (stripChars m.location) := by
  unfold atm_records at h
  split at h
  · exact absurd h (List.not_mem_nil r)
  · obtain ⟨m, hm, rfl⟩ := List.mem_map.mp h
    obtain ⟨input, rest, hmatch⟩ := mem_scanAll _ _ _ _ hm
    exact ⟨m, ⟨input, rest, hmatch⟩, rfl, rfl, rfl, rfl⟩

/-- Witness for C8 at a one-block ATM section. -/
theorem atm_record_shape_witness :
    (TransactionRecord.mk "05-15" "ATM Withdrawal - Main St" "Debit" 20 ∈
      atm_records atmInput) ∧
    (∃ m : AtmMatch, (∃ input rest, matchAtm input = some (m, rest)) ∧
      TransactionRecord.mk "05-15" "ATM Withdrawal - Main St" "Debit" 20 = mkAtmRecord m ∧
      (TransactionRecord.mk "05-15" "ATM Withdrawal - Main St" "Debit" 20).«Type» = "Debit" ∧
      (TransactionRecord.mk "05-15" "ATM Withdrawal - Main St" "Debit" 20).Date =
        String.mk m.datePaid ∧
      (TransactionRecord.mk "05-15" "ATM Withdrawal - Main St" "Debit" 20).Description =
        "ATM Withdrawal - " ++ String.mk (stripChars m.location)) := by
  have hl : atm_records atmInput =
      [TransactionRecord.mk "05-15" "ATM Withdrawal - Main St" "Debit" 20] := rfl
  have hmem : TransactionRecord.mk "05-15" "ATM Withdrawal - Main St" "Debit" 20 ∈
      atm_records atmInput := by
    rw [hl]
    exact List.mem_cons_self _ _
  exact ⟨hmem, atm_record_shape atmInput _ hmem⟩

/-- C9: every record emitted by any of the four patterns has a non-negative
amount, Debit records included: the amount captures admit only digits, commas
and a dot, and `parse_currency` of such a string is never negative. -/
theorem pattern_amounts_nonneg (t : String) (r : TransactionRecord)
    (h : r ∈ deposit_records t ++ atm_records t ++ check_records t ++ generic_records t) :
    0 ≤ r.Amount := by
  rcases List.mem_append.mp h with h | h
  · rcases List.mem_append.mp h with h | h
    · rcases List.mem_append.mp h with h | h
      · exact deposit_records_nonneg h
      · exact atm_records_nonneg h
    · exact check_records_nonneg h
  · exact generic_records_nonneg h

/-- Witness for C9 at a concrete deposit record. -/
theorem pattern_amounts_nonneg_witness :
    (TransactionRecord.mk "05-15" "Deposit A" "Credit" 1 ∈
      deposit_records dupInput ++ atm_records dupInput ++ check_records dupInput ++
        generic_records dupInput) ∧
    0 ≤ (TransactionRecord.mk "05-15" "Deposit A" "Credit" 1).Amount := by
  have hconcat : deposit_records dupInput ++ atm_records dupInput ++ check_records dupInput ++
      generic_records dupInput =
      [TransactionRecord.mk "05-15" "Deposit A" "Credit" 1,
       TransactionRecord.mk "05-15" "Deposit A" "Credit" 1] := rfl
  have hmem : TransactionRecord.mk "05-15" "Deposit A" "Credit" 1 ∈
      deposit_records dupInput ++ atm_records dupInput ++ check_records dupInput ++
        generic_records dupInput := by
    rw [hconcat]
    exact List.mem_cons_self _ _
  exact ⟨hmem, pattern_amounts_nonneg dupInput _ hmem⟩

/-- C10: no calendar validation of dates: on a buffer where patterns 1-3
match nothing, the fallback accepts the token "99-99" (which matches
two-digits-dash-two-digits but is not a valid month-day) as the date of the
returned record. -/
theorem no_calendar_validation :
    deposit_records genInput = [] ∧ atm_records genInput = [] ∧
    check_records genInput = [] ∧
    (extract_statement_data genInput).2 =
      [TransactionRecord.mk "99-99" "mystery item" "Unknown" 5] :=
  ⟨rfl, rfl, rfl, rfl⟩

end FinParser
